import Mathlib

/-!
Verification development for the edcraft-engine tracing and query subsystem.

The development shallowly embeds the parts of the code base that the
properties below are about:

* `src/core/query_engine/utils.py` (`get_field_value`),
  `src/core/query_engine/pipeline_steps.py` (`QueryCondition`, `MapStep`,
  `ReduceStep`, the join steps) over an explicit first-order value domain
  `PyVal` standing in for the dynamically typed rows of the trace relation;
* `src/models/tracer_models.py` (`StatementExecution` and its variants,
  `VariableSnapshot`, `ExecutionContext`) as a state machine whose
  operations are the tracer primitives that the AST transformer
  (`src/core/step_tracer/tracer_transformer.py`) injects into a program;
* the global names used by `src/core/step_tracer/step_tracer.py`
  (`StepTracer.execute_transformed_code`) and by the transformer.

Python exceptions are embedded with `Except`; Python's mutation of records
that are simultaneously on the execution stack and in the trace is embedded
by keeping the trace as the single store and letting the stack hold indices
into it.
-/

/-- Value domain for the dynamically typed rows manipulated by the query
engine and recorded by the tracer: integers, strings, booleans, `None`,
lists, dicts (as insertion-ordered association lists), join-result rows
(`JoinResult.alias_to_items`), plain objects with named attributes
(instances such as `VariableSnapshot` rows), and opaque bound methods
(what `getattr` returns for a built-in attribute of a `dict`). -/
inductive PyVal where
  | int : Int → PyVal
  | str : String → PyVal
  | bool : Bool → PyVal
  | none : PyVal
  | list : List PyVal → PyVal
  | dict : List (String × PyVal) → PyVal
  | joinResult : List (String × PyVal) → PyVal
  | obj : List (String × PyVal) → PyVal
  | boundMethod : String → PyVal
deriving Repr

mutual

/-- Python's `==` on the value domain: numeric equality identifies `bool`
with `0`/`1` as Python does, sequences and mappings compare recursively,
and values of unrelated types compare unequal (never an error). -/
def pyEq : PyVal → PyVal → Bool
  | .int a, .int b => a == b
  | .int a, .bool b => a == (if b then 1 else 0)
  | .bool a, .int b => (if a then (1 : Int) else 0) == b
  | .str a, .str b => a == b
  | .bool a, .bool b => a == b
  | .none, .none => true
  | .list xs, .list ys => pyEqList xs ys
  | .dict xs, .dict ys => pyEqAssoc xs ys
  | .joinResult xs, .joinResult ys => pyEqAssoc xs ys
  | .obj xs, .obj ys => pyEqAssoc xs ys
  | .boundMethod a, .boundMethod b => a == b
  | _, _ => false

/-- Elementwise equality of Python lists. -/
def pyEqList : List PyVal → List PyVal → Bool
  | [], [] => true
  | x :: xs, y :: ys => pyEq x y && pyEqList xs ys
  | _, _ => false

/-- Pairwise equality of association lists (keys and values in order). -/
def pyEqAssoc : List (String × PyVal) → List (String × PyVal) → Bool
  | [], [] => true
  | (k1, v1) :: xs, (k2, v2) :: ys => k1 == k2 && pyEq v1 v2 && pyEqAssoc xs ys
  | _, _ => false

end

/-- First binding of a key in an association list (Python `dict` lookup on
the insertion-ordered association-list embedding). -/
def assocLookup (k : String) : List (String × PyVal) → Option PyVal
  | [] => Option.none
  | (k', v) :: rest => if k' == k then some v else assocLookup k rest

/-- Key membership in an association list (Python `key in dict`). -/
def assocHasKey (k : String) (m : List (String × PyVal)) : Bool :=
  (assocLookup k m).isSome

/-- Exceptions surfaced by the query engine
(`src/core/query_engine/query_engine_exception.py`): `InvalidFieldError`
and `InvalidOperatorError`, both subclasses of `QueryEngineError`, plus the
generic `QueryEngineError` raised for alias collisions. -/
inductive QErr where
  | invalidField : String → QErr
  | invalidOperator : String → QErr
  | queryEngineError : String → QErr
deriving Repr, DecidableEq

/-- Python runtime exceptions that `QueryCondition.evaluate` catches
(`except (TypeError, KeyError)`), raised here by unsupported comparisons. -/
inductive PyErr where
  | typeError : PyErr
  | keyError : PyErr
deriving Repr, DecidableEq

/-- Attribute names that every Python `dict` object has (bound methods of
the built-in type), the ones relevant to `hasattr` probing of dict rows. -/
def dictBuiltinAttrs : List String :=
  ["items", "keys", "values", "get", "pop", "popitem", "clear", "copy",
   "update", "setdefault", "fromkeys"]

/-- Python `hasattr(obj, field)` on the value domain: plain objects have
exactly their named attributes, dicts have the built-in `dict` method
names; the scalar and sequence values expose no attribute relevant here. -/
def hasattrF : PyVal → String → Bool
  | .obj attrs, f => assocHasKey f attrs
  | .dict _, f => dictBuiltinAttrs.contains f
  | _, _ => false

/-- Python `getattr(obj, field)` for the cases where `hasattrF` is true:
the stored attribute for plain objects, a bound method for dicts. -/
def getattrF : PyVal → String → PyVal
  | .obj attrs, f => (assocLookup f attrs).getD PyVal.none
  | .dict _, f => PyVal.boundMethod f
  | _, _ => PyVal.none

/-- One step of `get_field_value`'s loop followed by the rest of the path
(`src/core/query_engine/utils.py`): a `JoinResult` resolves the segment as
an alias lookup and returns `None` early when the alias is missing or
holds `None`; otherwise an existing attribute wins, then a dict key;
otherwise `InvalidFieldError` is raised. -/
def get_field_value : PyVal → List String → Except QErr PyVal
  | v, [] => .ok v
  | .joinResult m, f :: rest =>
      match assocLookup f m with
      | Option.none => .ok PyVal.none
      | some PyVal.none => .ok PyVal.none
      | some v => get_field_value v rest
  | v, f :: rest =>
      if hasattrF v f then get_field_value (getattrF v f) rest
      else
        match v with
        | .dict m =>
            match assocLookup f m with
            | some x => get_field_value x rest
            | Option.none => .error (QErr.invalidField f)
        | _ => .error (QErr.invalidField f)

/-- Structural splitter used by `splitFieldPath`: accumulates the current
segment (reversed) and starts a new one at each `'.'`. -/
def splitDotAux : List Char → List Char → List String
  | [], acc => [String.mk acc.reverse]
  | c :: rest, acc =>
      if c = '.' then String.mk acc.reverse :: splitDotAux rest []
      else splitDotAux rest (c :: acc)

/-- Dotted field paths are split on `"."` before resolution
(`field_path.split(".")`), embedded as a structural traversal of the
characters so that it computes definitionally. -/
def splitFieldPath (path : String) : List String :=
  splitDotAux path.toList []

/-- Python ordering comparison on the value domain: numbers (with `bool`
as `0`/`1`) and strings are ordered, any other combination raises
`TypeError`. Returns the result of `<`. -/
def pyLt : PyVal → PyVal → Except PyErr Bool
  | .int a, .int b => .ok (a < b)
  | .int a, .bool b => .ok (a < (if b then 1 else 0))
  | .bool a, .int b => .ok ((if a then (1 : Int) else 0) < b)
  | .bool a, .bool b => .ok ((if a then (1 : Int) else 0) < (if b then 1 else 0))
  | .str a, .str b => .ok (a < b)
  | _, _ => .error PyErr.typeError

/-- Python membership test `x in y`: defined for lists (elementwise `==`),
strings (substring test) and dicts (key membership for string keys);
any other right operand raises `TypeError`. -/
def pyIn (x y : PyVal) : Except PyErr Bool :=
  match y with
  | .list ys => .ok (ys.any (pyEq x))
  | .str s =>
      match x with
      | .str sub => .ok (((s.splitOn sub).length ≥ 2) || sub == "")
      | _ => .error PyErr.typeError
  | .dict m =>
      match x with
      | .str k => .ok (assocHasKey k m)
      | .int _ | .bool _ | .none => .ok false
      | _ => .error PyErr.typeError
  | _ => .error PyErr.typeError

/-- Comparison map of `QueryCondition.__init__`
(`src/core/query_engine/pipeline_steps.py`): the eight supported operator
names, each mapped to its semantics on the value domain; `Option.none`
models `op_map.get` missing. -/
def opMap (op : String) : Option (PyVal → PyVal → Except PyErr Bool) :=
  if op == "==" then some (fun x y => .ok (pyEq x y))
  else if op == "!=" then some (fun x y => .ok (!(pyEq x y)))
  else if op == "<" then some pyLt
  else if op == "<=" then some (fun x y => do
    let lt ← pyLt x y
    return lt || pyEq x y)
  else if op == ">" then some (fun x y => pyLt y x)
  else if op == ">=" then some (fun x y => do
    let lt ← pyLt y x
    return lt || pyEq x y)
  else if op == "in" then some pyIn
  else if op == "not_in" then some (fun x y => do
    let i ← pyIn x y
    return !i)
  else Option.none

/-- Embedding of `QueryCondition` (`field`, `op`, `value`). -/
structure QueryCondition where
  field : String
  op : String
  value : PyVal

/-- Embedding of `QueryCondition.evaluate`: inside the `try` block the
field path is resolved (`InvalidFieldError` is not a `TypeError` or
`KeyError`, so it propagates), an unknown operator raises
`InvalidOperatorError` (which likewise propagates), and only a `TypeError`
or `KeyError` raised by the comparison itself is caught and turned into
`False`. -/
def QueryCondition.evaluate (c : QueryCondition) (row : PyVal) :
    Except QErr Bool :=
  match get_field_value row (splitFieldPath c.field) with
  | .error e => .error e
  | .ok fieldValue =>
      match opMap c.op with
      | Option.none => .error (QErr.invalidOperator c.op)
      | some opFunc =>
          match opFunc fieldValue c.value with
          | .error _ => .ok false
          | .ok b => .ok b

/-- Embedding of `MapStep.apply`: elementwise application of the stored
function. -/
def MapStep.apply (f : PyVal → PyVal) (items : List PyVal) : List PyVal :=
  items.map f

/-- Embedding of `ReduceStep.apply`: list-valued rows are flattened one
level (`extend`), all other rows pass through (`append`). -/
def ReduceStep.apply : List PyVal → List PyVal
  | [] => []
  | PyVal.list xs :: rest => xs ++ ReduceStep.apply rest
  | item :: rest => item :: ReduceStep.apply rest

/-- Singleton-wrapping map function `x ↦ [x]`. -/
def singletonWrap (x : PyVal) : PyVal :=
  PyVal.list [x]

/-- Embedding of the `JoinStep` dataclass fields: the right-hand item
list, the join predicate, and the two aliases. -/
structure JoinStep where
  other_items : List PyVal
  conditions : PyVal → PyVal → Bool
  left_alias : String
  right_alias : String

/-- Embedding of `JoinStep.__post_init__`: construction fails with
`QueryEngineError` when the two aliases are equal. -/
def JoinStep.mk? (other_items : List PyVal) (conditions : PyVal → PyVal → Bool)
    (left_alias right_alias : String) : Except QErr JoinStep :=
  if left_alias == right_alias then
    .error (QErr.queryEngineError "Left and right aliases must be different.")
  else
    .ok ⟨other_items, conditions, left_alias, right_alias⟩

/-- Second half of `JoinStep._create_joined_result`: adding the right
alias to an accumulated alias map raises `QueryEngineError` if that alias
is already bound. -/
def JoinStep.addRightAlias (s : JoinStep) (aliasToItems : List (String × PyVal))
    (right : PyVal) : Except QErr PyVal :=
  if assocHasKey s.right_alias aliasToItems then
    .error (QErr.queryEngineError
      ("Alias " ++ s.right_alias ++ " is already used."))
  else
    .ok (PyVal.joinResult (aliasToItems ++ [(s.right_alias, right)]))

/-- Embedding of `JoinStep._create_joined_result`: a `JoinResult` left row
contributes its whole alias map, any other left row is bound under the
left alias; then adding the right alias raises `QueryEngineError` if that
alias is already bound. -/
def JoinStep.createJoinedResult (s : JoinStep) (left right : PyVal) :
    Except QErr PyVal :=
  s.addRightAlias
    (match left with
     | .joinResult m => m
     | l => [(s.left_alias, l)])
    right

/-- Inner loop of `InnerJoinStep.apply` for one left row: a joined result
for every right row satisfying the predicate, in right-list order. -/
def innerJoinRow (s : JoinStep) (l : PyVal) : List PyVal → Except QErr (List PyVal)
  | [] => .ok []
  | r :: rest =>
      if s.conditions l r then
        match s.createJoinedResult l r with
        | .error e => .error e
        | .ok row =>
            match innerJoinRow s l rest with
            | .error e => .error e
            | .ok more => .ok (row :: more)
      else innerJoinRow s l rest

/-- Embedding of `InnerJoinStep.apply`: only matching pairs are kept, in
left-major order; an alias collision aborts the whole application with
`QueryEngineError` (the caller receives no rows). -/
def InnerJoinStep.apply (s : JoinStep) : List PyVal → Except QErr (List PyVal)
  | [] => .ok []
  | l :: rest =>
      match innerJoinRow s l s.other_items with
      | .error e => .error e
      | .ok rows =>
          match InnerJoinStep.apply s rest with
          | .error e => .error e
          | .ok more => .ok (rows ++ more)

/-- Embedding of `LeftJoinStep.apply`'s body for one left row: the
matching joined results, or a single result with `None` on the right when
nothing matched. -/
def leftJoinRow (s : JoinStep) (l : PyVal) : Except QErr (List PyVal) :=
  match innerJoinRow s l s.other_items with
  | .error e => .error e
  | .ok rows =>
      if rows.isEmpty then
        match s.createJoinedResult l PyVal.none with
        | .error e => .error e
        | .ok row => .ok [row]
      else .ok rows

/-- Embedding of `LeftJoinStep.apply`: every left row yields its matches
or a right-`None` row; an alias collision aborts the whole application. -/
def LeftJoinStep.apply (s : JoinStep) : List PyVal → Except QErr (List PyVal)
  | [] => .ok []
  | l :: rest =>
      match leftJoinRow s l with
      | .error e => .error e
      | .ok rows =>
          match LeftJoinStep.apply s rest with
          | .error e => .error e
          | .ok more => .ok (rows ++ more)

/-- Right rows unmatched by every left row, in right-list order, each
joined with `None` on the left; embeds the trailing loop of
`FullOuterJoinStep.apply` over `matched_right_indices` (two right rows at
different indices with equal values match the same left rows, so the
index-set bookkeeping is value-determined). -/
def fullOuterUnmatchedRight (s : JoinStep) (items : List PyVal) :
    List PyVal → Except QErr (List PyVal)
  | [] => .ok []
  | r :: rest =>
      if items.any (fun l => s.conditions l r) then
        fullOuterUnmatchedRight s items rest
      else
        match s.createJoinedResult PyVal.none r with
        | .error e => .error e
        | .ok row =>
            match fullOuterUnmatchedRight s items rest with
            | .error e => .error e
            | .ok more => .ok (row :: more)

/-- Embedding of `FullOuterJoinStep.apply`: the left-join rows followed by
one left-`None` row per unmatched right row. -/
def FullOuterJoinStep.apply (s : JoinStep) (items : List PyVal) :
    Except QErr (List PyVal) :=
  match LeftJoinStep.apply s items with
  | .error e => .error e
  | .ok leftPart =>
      match fullOuterUnmatchedRight s items s.other_items with
      | .error e => .error e
      | .ok rightPart => .ok (leftPart ++ rightPart)

/-- A left row already binding the given alias (the collision that
`_create_joined_result` rejects for `JoinResult` left rows). -/
def collidesWith (rightAlias : String) (l : PyVal) : Bool :=
  match l with
  | .joinResult m => assocHasKey rightAlias m
  | _ => false

/-- Payload of a `FunctionCall` record beyond the base fields
(`src/models/tracer_models.py`): the two names, the optional definition
line, the insertion-ordered arguments mapping, the return value (`None`
until set) and the id of the enclosing execution at call time. -/
structure FunctionCallData where
  func_name : String
  func_full_name : String
  func_def_line_num : Option Nat
  arguments : List (String × PyVal)
  return_value : PyVal
  func_call_exec_ctx_id : Nat
deriving Repr

/-- Variant payload distinguishing the `StatementExecution` subclasses:
`LoopExecution` (loop type and running iteration count), `LoopIteration`
(0-based iteration number and owning loop id), `FunctionCall` and
`BranchExecution`. -/
inductive RecKind where
  | loop : String → Nat → RecKind
  | loopIteration : Nat → Nat → RecKind
  | function : FunctionCallData → RecKind
  | branch : String → Bool → RecKind
deriving Repr

/-- Embedding of `StatementExecution` and its subclasses as one record:
the base fields shared by all variants plus the variant payload.
`end_execution_id` models the attribute of that name that downstream
consumers read (`getattr(item, "end_execution_id", ...)` in
`src/core/query_engine/query_engine.py`); it is `Option.none` while the
attribute does not exist on the object. -/
structure StatementExecution where
  execution_id : Nat
  scope_id : Nat
  line_number : Nat
  kind : RecKind
  end_execution_id : Option Nat
deriving Repr

/-- Constructor-passed `stmt_type` string of each variant. -/
def RecKind.stmtType : RecKind → String
  | .loop _ _ => "loop"
  | .loopIteration _ _ => "loop_iteration"
  | .function _ => "function"
  | .branch _ _ => "branch"

/-- Embedding of the `VariableSnapshot` dataclass. -/
structure VariableSnapshot where
  name : String
  value : PyVal
  access_path : String
  line_number : Nat
  scope_id : Nat
  execution_id : Nat
deriving Repr

/-- Embedding of `ExecutionContext`'s state. Python appends the same
record object to `execution_trace` and `execution_stack`, and later
mutates it through the stack top; here the trace is the single store and
the stack holds indices into it (top first). The scope stack holds scope
ids (top first); the scope tree structure is not needed by the
properties below. The source field `variables` is spelled
`variable_snapshots` because `variables` is reserved in Lean. -/
structure ExecutionContext where
  execution_trace : List StatementExecution
  variable_snapshots : List VariableSnapshot
  execution_stack : List Nat
  scope_stack : List Nat
  execution_counter : Nat
  scope_counter : Nat
deriving Repr

/-- Embedding of `ExecutionContext.__init__`: empty trace and stacks, both
counters at `0`, the global scope (id `0`) already on the scope stack. -/
def ExecutionContext.init : ExecutionContext :=
  ⟨[], [], [], [0], 0, 0⟩

/-- Python runtime errors the tracer primitives can raise: `RuntimeError`
from `record_loop_iteration`, `IndexError` from popping or reading an
empty stack, `AttributeError` from calling a `FunctionCall` method on
`None` or on a record of another variant. -/
inductive TraceErr where
  | runtimeError : String → TraceErr
  | indexError : TraceErr
  | attributeError : TraceErr
deriving Repr, DecidableEq

/-- The record currently on top of the execution stack together with its
trace index (`ExecutionContext.current_execution`), or `Option.none` when
the stack is empty. -/
def ExecutionContext.currentExecution (ctx : ExecutionContext) :
    Option (Nat × StatementExecution) :=
  match ctx.execution_stack with
  | [] => Option.none
  | idx :: _ => (ctx.execution_trace.get? idx).map (fun r => (idx, r))

/-- The scope id on top of the scope stack
(`ExecutionContext.current_scope`); reading an empty stack is Python's
`IndexError`. -/
def ExecutionContext.currentScopeId (ctx : ExecutionContext) :
    Except TraceErr Nat :=
  match ctx.scope_stack with
  | [] => .error TraceErr.indexError
  | s :: _ => .ok s

/-- Embedding of `ExecutionContext.push_execution`: the record is appended
to the trace and its index is pushed on the execution stack. -/
def ExecutionContext.pushExecution (ctx : ExecutionContext)
    (e : StatementExecution) : ExecutionContext :=
  { ctx with
      execution_trace := ctx.execution_trace ++ [e],
      execution_stack := ctx.execution_trace.length :: ctx.execution_stack }

/-- Embedding of `ExecutionContext.pop_execution`: the top of the
execution stack is popped and, when the popped record is a
`FunctionCall`, the scope stack is popped as well. No field of the popped
record is written. -/
def ExecutionContext.popExecution (ctx : ExecutionContext) :
    Except TraceErr ExecutionContext :=
  match ctx.execution_stack with
  | [] => .error TraceErr.indexError
  | idx :: stackRest =>
      match ctx.execution_trace.get? idx with
      | Option.none => .error TraceErr.indexError
      | some r =>
          match r.kind with
          | .function _ =>
              match ctx.scope_stack with
              | [] => .error TraceErr.indexError
              | _ :: scopeRest =>
                  .ok { ctx with execution_stack := stackRest,
                                 scope_stack := scopeRest }
          | _ => .ok { ctx with execution_stack := stackRest }

/-- Embedding of `ExecutionContext.record_loop_execution`: a fresh
execution id, the current scope id, and a `LoopExecution` with zero
iterations is pushed. -/
def ExecutionContext.recordLoopExecution (ctx : ExecutionContext)
    (line : Nat) (loopType : String) : Except TraceErr ExecutionContext :=
  match ctx.currentScopeId with
  | .error e => .error e
  | .ok scope =>
      let execId := ctx.execution_counter + 1
      let rec0 : StatementExecution :=
        ⟨execId, scope, line, RecKind.loop loopType 0, Option.none⟩
      .ok (({ ctx with execution_counter := execId }).pushExecution rec0)

/-- Embedding of `ExecutionContext.record_loop_iteration` together with
`LoopExecution.start_iteration`: requires the current execution to be a
`LoopExecution` (else `RuntimeError`); the new `LoopIteration` takes the
loop's line number, the loop's current `num_iterations` as its 0-based
`iteration_num`, and the loop's id as `loop_execution_id`; the loop's
`num_iterations` is then incremented in place (trace update) and the
iteration is pushed. -/
def ExecutionContext.recordLoopIteration (ctx : ExecutionContext) :
    Except TraceErr ExecutionContext :=
  match ctx.currentExecution with
  | some (idx, r) =>
      match r.kind with
      | .loop loopType numIterations =>
          match ctx.currentScopeId with
          | .error e => .error e
          | .ok scope =>
              let execId := ctx.execution_counter + 1
              let iteration : StatementExecution :=
                ⟨execId, scope, r.line_number,
                 RecKind.loopIteration numIterations r.execution_id, Option.none⟩
              let bumpedLoop : StatementExecution :=
                { r with kind := RecKind.loop loopType (numIterations + 1) }
              let ctx2 := { ctx with
                execution_trace := ctx.execution_trace.set idx bumpedLoop,
                execution_counter := execId }
              .ok (ctx2.pushExecution iteration)
      | _ => .error (TraceErr.runtimeError
          "No active loop execution to record iteration for.")
  | Option.none => .error (TraceErr.runtimeError
      "No active loop execution to record iteration for.")

/-- Embedding of `ExecutionContext.record_function_call`: a fresh
execution id, the current scope id, the enclosing execution's id (or `0`
at top level) as `func_call_exec_ctx_id`; the `FunctionCall` is pushed
and a fresh function scope is pushed on the scope stack. -/
def ExecutionContext.recordFunctionCall (ctx : ExecutionContext)
    (line : Nat) (funcName funcFullName : String) :
    Except TraceErr ExecutionContext :=
  match ctx.currentScopeId with
  | .error e => .error e
  | .ok scope =>
      let execId := ctx.execution_counter + 1
      let ctxId := match ctx.currentExecution with
        | some (_, r) => r.execution_id
        | Option.none => 0
      let d : FunctionCallData :=
        ⟨funcName, funcFullName, Option.none, [], PyVal.none, ctxId⟩
      let rec0 : StatementExecution :=
        ⟨execId, scope, line, RecKind.function d, Option.none⟩
      let ctx2 := ({ ctx with execution_counter := execId }).pushExecution rec0
      let newScopeId := ctx2.scope_counter + 1
      .ok { ctx2 with
          scope_counter := newScopeId,
          scope_stack := newScopeId :: ctx2.scope_stack }

/-- Embedding of `ExecutionContext.record_branch_execution`: a fresh id,
the current scope, and a `BranchExecution` carrying the condition source
and its boolean result is pushed. -/
def ExecutionContext.recordBranchExecution (ctx : ExecutionContext)
    (line : Nat) (condStr : String) (condResult : Bool) :
    Except TraceErr ExecutionContext :=
  match ctx.currentScopeId with
  | .error e => .error e
  | .ok scope =>
      let execId := ctx.execution_counter + 1
      let rec0 : StatementExecution :=
        ⟨execId, scope, line, RecKind.branch condStr condResult, Option.none⟩
      .ok (({ ctx with execution_counter := execId }).pushExecution rec0)

/-- Embedding of `ExecutionContext.record_variable`: the snapshot takes
the current execution's id (`0` when the stack is empty) and the current
scope id, and is appended to `variables`. -/
def ExecutionContext.recordVariable (ctx : ExecutionContext)
    (name : String) (value : PyVal) (accessPath : String) (line : Nat) :
    Except TraceErr ExecutionContext :=
  match ctx.currentScopeId with
  | .error e => .error e
  | .ok scope =>
      let execId := match ctx.currentExecution with
        | some (_, r) => r.execution_id
        | Option.none => 0
      .ok { ctx with variable_snapshots :=
          ctx.variable_snapshots ++ [⟨name, value, accessPath, line, scope, execId⟩] }

/-- Applies a mutation to the `FunctionCall` payload of the current
execution, embedding the transformer-injected pattern
`CTX.current_execution.<method>(...)`: Python raises `AttributeError`
when the stack is empty (`None.<method>`) or when the current record's
class does not define the method (only `FunctionCall` has them). -/
def ExecutionContext.mutateCurrentFunction (ctx : ExecutionContext)
    (f : FunctionCallData → FunctionCallData) : Except TraceErr ExecutionContext :=
  match ctx.currentExecution with
  | Option.none => .error TraceErr.attributeError
  | some (idx, r) =>
      match r.kind with
      | .function d =>
          .ok { ctx with execution_trace :=
              ctx.execution_trace.set idx { r with kind := RecKind.function (f d) } }
      | _ => .error TraceErr.attributeError

/-- Embedding of `FunctionCall.reset_args`. -/
def FunctionCallData.resetArgs (d : FunctionCallData) : FunctionCallData :=
  { d with arguments := [] }

/-- Embedding of `FunctionCall.add_arg`: `self.arguments[name] = value`,
overwriting an existing binding in place or appending a new one. -/
def FunctionCallData.addArg (d : FunctionCallData) (name : String)
    (value : PyVal) : FunctionCallData :=
  { d with arguments :=
      if assocHasKey name d.arguments then
        d.arguments.map (fun kv => if kv.1 == name then (name, value) else kv)
      else
        d.arguments ++ [(name, value)] }

/-- Embedding of `FunctionCall.set_return_value`. -/
def FunctionCallData.setReturnValue (d : FunctionCallData) (v : PyVal) :
    FunctionCallData :=
  { d with return_value := v }

/-- Embedding of `FunctionCall.set_func_def_line_num`. -/
def FunctionCallData.setFuncDefLineNum (d : FunctionCallData) (line : Nat) :
    FunctionCallData :=
  { d with func_def_line_num := some line }

/-- The tracer primitives a transformed program invokes on the execution
context: the `record_*` methods, `pop_execution`, and the
`current_execution.<method>` mutations injected by the transformer for
function tracking. -/
inductive TraceOp where
  | recordLoopExecution : Nat → String → TraceOp
  | recordLoopIteration : TraceOp
  | recordFunctionCall : Nat → String → String → TraceOp
  | recordBranchExecution : Nat → String → Bool → TraceOp
  | recordVariable : String → PyVal → String → Nat → TraceOp
  | popExecution : TraceOp
  | currentResetArgs : TraceOp
  | currentAddArg : String → PyVal → TraceOp
  | currentSetReturnValue : PyVal → TraceOp
  | currentSetFuncDefLineNum : Nat → TraceOp

/-- One tracer primitive applied to the context state. -/
def traceStep (ctx : ExecutionContext) : TraceOp → Except TraceErr ExecutionContext
  | .recordLoopExecution line loopType => ctx.recordLoopExecution line loopType
  | .recordLoopIteration => ctx.recordLoopIteration
  | .recordFunctionCall line n fn => ctx.recordFunctionCall line n fn
  | .recordBranchExecution line c b => ctx.recordBranchExecution line c b
  | .recordVariable n v ap line => ctx.recordVariable n v ap line
  | .popExecution => ctx.popExecution
  | .currentResetArgs => ctx.mutateCurrentFunction FunctionCallData.resetArgs
  | .currentAddArg n v => ctx.mutateCurrentFunction (fun d => d.addArg n v)
  | .currentSetReturnValue v =>
      ctx.mutateCurrentFunction (fun d => d.setReturnValue v)
  | .currentSetFuncDefLineNum line =>
      ctx.mutateCurrentFunction (fun d => d.setFuncDefLineNum line)

/-- Runs a sequence of tracer primitives from a given state, stopping at
the first raised exception. -/
def traceRunFrom (ctx : ExecutionContext) : List TraceOp → Except TraceErr ExecutionContext
  | [] => .ok ctx
  | op :: rest =>
      match traceStep ctx op with
      | .error e => .error e
      | .ok ctx2 => traceRunFrom ctx2 rest

/-- Runs a sequence of tracer primitives on a fresh execution context, as
`StepTracer.execute_transformed_code` does for the primitives the
transformed program performs. -/
def traceRun (ops : List TraceOp) : Except TraceErr ExecutionContext :=
  traceRunFrom ExecutionContext.init ops

/-- Error raised by `_create_joined_result` when the right alias is
already bound (its message interpolates the alias). -/
def aliasUsedError (s : JoinStep) : QErr :=
  QErr.queryEngineError ("Alias " ++ s.right_alias ++ " is already used.")

/-- Global name under which the transformer's injected tracing calls
reference the execution context (`TracerTransformer.__init__`,
`src/core/step_tracer/tracer_transformer.py`, `self.exec_ctx_name`). -/
def tracerTransformerExecCtxName : String :=
  "_step_tracer_exec_ctx"

/-- Global names that `StepTracer.execute_transformed_code` binds in the
globals dictionary before executing the transformed program
(`src/core/step_tracer/step_tracer.py`, the `globals_dict.update` call);
with the default `globals_dict=None` these are the only bindings the
driver contributes. -/
def stepTracerDriverGlobals : List String :=
  ["_step_tracer_execution_context", "_step_tracer_utils"]

/-- Tracer primitives performed for the frame `record_loop_execution(1,
"for")` immediately closed by `pop_execution()`: the smallest run in
which a frame is opened and closed. -/
def c2PopOps : List TraceOp :=
  [TraceOp.recordLoopExecution 1 "for", TraceOp.popExecution]

/-- Sequence of tracer primitives the transformed form of the program
`def f(a, b): return a+b` followed by `f(3, 4)` performs against the
execution context, in execution order. The transformer expands the call
statement (`expand_call`) into `record_function_call(2, "f", "f")`,
`current_execution.add_arg("_arg0", 3)`,
`current_execution.add_arg("_arg1", 4)`, the call itself — whose
instrumented body (`visit_FunctionDef`) runs
`current_execution.reset_args()`,
`current_execution.set_func_def_line_num(1)`, then per parameter
`add_arg`/`record_variable` — then
`current_execution.set_return_value(7)` and `pop_execution()`. The ops
model the injected calls as reaching the context; whether they resolve at
all under the driver's bindings is the subject of the C1 property. -/
def e3TransformedOps : List TraceOp :=
  [TraceOp.recordFunctionCall 2 "f" "f",
   TraceOp.currentAddArg "_arg0" (PyVal.int 3),
   TraceOp.currentAddArg "_arg1" (PyVal.int 4),
   TraceOp.currentResetArgs,
   TraceOp.currentSetFuncDefLineNum 1,
   TraceOp.currentAddArg "a" (PyVal.int 3),
   TraceOp.recordVariable "a" (PyVal.int 3) "a" 1,
   TraceOp.currentAddArg "b" (PyVal.int 4),
   TraceOp.recordVariable "b" (PyVal.int 4) "b" 1,
   TraceOp.currentSetReturnValue (PyVal.int 7),
   TraceOp.popExecution]

/-- The `FunctionCall` payloads of the trace produced by the transformed
`def f(a, b): return a+b` / `f(3, 4)` program, in trace order. -/
def e3FunctionCalls : List FunctionCallData :=
  match traceRun e3TransformedOps with
  | .ok ctx =>
      ctx.execution_trace.filterMap (fun r =>
        match r.kind with
        | RecKind.function d => some d
        | _ => none)
  | .error _ => []

/-- Whether a record is a `LoopIteration` belonging to the loop with the
given execution id. -/
def isIterationOf (loopId : Nat) (r : StatementExecution) : Bool :=
  match r.kind with
  | RecKind.loopIteration _ lid => lid == loopId
  | _ => false

/-- The `iteration_num` of a `LoopIteration` record (`0` elsewhere; only
applied under `isIterationOf`). -/
def iterationNumOf (r : StatementExecution) : Nat :=
  match r.kind with
  | RecKind.loopIteration i _ => i
  | _ => 0

/-- The `iteration_num` values, in trace order, of the `LoopIteration`
records belonging to the loop with the given execution id. -/
def iterationNumsFor (loopId : Nat) (tr : List StatementExecution) : List Nat :=
  (tr.filter (isIterationOf loopId)).map iterationNumOf

/-- Invariant of the execution-context state machine, preserved by every
tracer primitive: the trace's execution ids are exactly `1, …, counter`
in order (so they are strictly increasing, positive, and issued centrally
starting at `1`); every stack entry indexes into the trace; every
`LoopIteration` references a loop id no greater than the counter; and
every `LoopExecution`'s `num_iterations` matches its recorded iterations,
whose `iteration_num`s are `0, …, num_iterations - 1` in trace order. -/
structure TraceInv (ctx : ExecutionContext) : Prop where
  ids_range : ctx.execution_trace.map (fun r => r.execution_id)
      = List.range' 1 ctx.execution_counter
  stack_valid : ∀ i ∈ ctx.execution_stack, i < ctx.execution_trace.length
  iter_ref_le : ∀ r ∈ ctx.execution_trace, ∀ i lid,
      r.kind = RecKind.loopIteration i lid → lid ≤ ctx.execution_counter
  loop_iters : ∀ L ∈ ctx.execution_trace, ∀ lt n, L.kind = RecKind.loop lt n →
      iterationNumsFor L.execution_id ctx.execution_trace = List.range n

/-- Tracer primitives of the run `for`-looping twice used to witness the
loop-iteration invariant: open a loop, record two iterations (each
closed), close the loop. -/
def c5WitnessOps : List TraceOp :=
  [TraceOp.recordLoopExecution 1 "for", TraceOp.recordLoopIteration,
   TraceOp.popExecution, TraceOp.recordLoopIteration,
   TraceOp.popExecution, TraceOp.popExecution]

/-- Tracer primitives of a small mixed run (a function call frame around
a branch, then a variable) used to witness the id-monotonicity
invariant. -/
def c7WitnessOps : List TraceOp :=
  [TraceOp.recordFunctionCall 1 "f" "f",
   TraceOp.recordBranchExecution 2 "x > 0" true,
   TraceOp.popExecution,
   TraceOp.recordVariable "x" (PyVal.int 5) "x" 3,
   TraceOp.popExecution]

/-- Execution context resulting from `c5WitnessOps`, written out for
concrete evaluation. -/
def c5WitnessCtx : ExecutionContext :=
  ⟨[⟨1, 0, 1, RecKind.loop "for" 2, Option.none⟩,
    ⟨2, 0, 1, RecKind.loopIteration 0 1, Option.none⟩,
    ⟨3, 0, 1, RecKind.loopIteration 1 1, Option.none⟩],
   [], [], [0], 3, 0⟩

/-- Execution context resulting from `c7WitnessOps`, written out for
concrete evaluation. -/
def c7WitnessCtx : ExecutionContext :=
  ⟨[⟨1, 0, 1, RecKind.function
      ⟨"f", "f", Option.none, [], PyVal.none, 0⟩, Option.none⟩,
    ⟨2, 1, 2, RecKind.branch "x > 0" true, Option.none⟩],
   [⟨"x", PyVal.int 5, "x", 3, 1, 1⟩], [], [0], 2, 1⟩

/-- C9: for every list of rows, flattening after wrapping each row in a
singleton list is the identity: `ReduceStep` after `MapStep (λx. [x])`
returns the original row list unchanged. -/
theorem C9_reduce_after_singleton_map_is_identity (items : List PyVal) :
    ReduceStep.apply (MapStep.apply singletonWrap items) = items := by
  induction items with
  | nil => rfl
  | cons x xs ih =>
      simp [MapStep.apply, singletonWrap, ReduceStep.apply] at ih ⊢
      simpa [MapStep.apply] using ih

/-- C10: in `get_field_value`, a path segment on a non-join-result row is
resolved as an object attribute first and as a mapping key only when no
attribute of that name exists; consequently, on a dict row whose key
collides with a built-in `dict` attribute name the attribute (the bound
method) wins over the stored value. -/
theorem C10_attribute_lookup_shadows_dict_key :
    (∀ (m : List (String × PyVal)) (f : String) (rest : List String),
        dictBuiltinAttrs.contains f = true →
        get_field_value (PyVal.dict m) (f :: rest)
          = get_field_value (PyVal.boundMethod f) rest) ∧
    (∀ (m : List (String × PyVal)) (f : String) (rest : List String) (v : PyVal),
        dictBuiltinAttrs.contains f = false →
        assocLookup f m = some v →
        get_field_value (PyVal.dict m) (f :: rest) = get_field_value v rest) ∧
    (∀ (m : List (String × PyVal)),
        get_field_value (PyVal.dict m) ["items"]
          = .ok (PyVal.boundMethod "items")) := by
  refine ⟨?_, ?_, ?_⟩
  · intro m f rest h
    have h' : f ∈ dictBuiltinAttrs := by simpa using h
    simp [get_field_value, hasattrF, getattrF, h']
  · intro m f rest v h hl
    have h' : f ∉ dictBuiltinAttrs := by simpa using h
    simp [get_field_value, hasattrF, getattrF, assocHasKey, h', hl]
  · intro m
    simp [get_field_value, hasattrF, getattrF, dictBuiltinAttrs]

/-- Witness for C10 at a concrete input: on the dict `{"items": 5}` the
path `"items"` resolves to the bound method, not to the stored `5`. -/
theorem C10_attribute_lookup_shadows_dict_key_witness :
    get_field_value (PyVal.dict [("items", PyVal.int 5)]) ["items"]
      = .ok (PyVal.boundMethod "items") :=
  C10_attribute_lookup_shadows_dict_key.2.2 [("items", PyVal.int 5)]

/-- C3 counterexample: on the concrete row `obj {name: "x", value: 1}`
the condition `("no_such_field", "==", 1)` does not evaluate to false —
it raises `InvalidFieldError`, which is not among the exceptions the
`except (TypeError, KeyError)` clause catches. -/
theorem C3_counterexample_unresolvable_field_raises :
    QueryCondition.evaluate
        ⟨"no_such_field", "==", PyVal.int 1⟩
        (PyVal.obj [("name", PyVal.str "x"), ("value", PyVal.int 1)])
      = .error (QErr.invalidField "no_such_field") ∧
    QueryCondition.evaluate
        ⟨"no_such_field", "==", PyVal.int 1⟩
        (PyVal.obj [("name", PyVal.str "x"), ("value", PyVal.int 1)])
      ≠ .ok false := by
  have h1 : QueryCondition.evaluate
      ⟨"no_such_field", "==", PyVal.int 1⟩
      (PyVal.obj [("name", PyVal.str "x"), ("value", PyVal.int 1)])
      = .error (QErr.invalidField "no_such_field") := rfl
  refine ⟨h1, ?_⟩
  intro h
  rw [h1] at h
  exact Except.noConfusion h

/-- C3 amended: in `QueryCondition.evaluate`, only a `TypeError` (or
`KeyError`) raised by the comparison itself degrades to condition-false;
an unresolvable field path raises `InvalidFieldError`, which propagates
(the row is not silently filtered out), and an unknown operator raises
`InvalidOperatorError` provided the field path resolved first. -/
theorem C3_amended_where_condition_error_handling
    (c : QueryCondition) (row : PyVal) :
    (∀ fieldValue opFunc,
        get_field_value row (splitFieldPath c.field) = .ok fieldValue →
        opMap c.op = some opFunc →
        opFunc fieldValue c.value = .error PyErr.typeError →
        c.evaluate row = .ok false) ∧
    (∀ e, get_field_value row (splitFieldPath c.field) = .error e →
        c.evaluate row = .error e) ∧
    (∀ fieldValue,
        get_field_value row (splitFieldPath c.field) = .ok fieldValue →
        opMap c.op = Option.none →
        c.evaluate row = .error (QErr.invalidOperator c.op)) := by
  refine ⟨?_, ?_, ?_⟩
  · intro fieldValue opFunc hf hop herr
    simp [QueryCondition.evaluate, hf, hop, herr]
  · intro e hf
    simp [QueryCondition.evaluate, hf]
  · intro fieldValue hf hop
    simp [QueryCondition.evaluate, hf, hop]

/-- Witness for C3 at concrete inputs: comparing the int field `value`
with a string under `<` raises `TypeError`, so the condition is false;
and the unknown operator `"like"` raises `InvalidOperatorError` on a row
where the field resolves. -/
theorem C3_amended_where_condition_error_handling_witness :
    QueryCondition.evaluate ⟨"value", "<", PyVal.str "a"⟩
        (PyVal.obj [("value", PyVal.int 1)]) = .ok false ∧
    QueryCondition.evaluate ⟨"value", "like", PyVal.int 1⟩
        (PyVal.obj [("value", PyVal.int 1)])
      = .error (QErr.invalidOperator "like") := by
  constructor
  · exact (C3_amended_where_condition_error_handling
      ⟨"value", "<", PyVal.str "a"⟩ (PyVal.obj [("value", PyVal.int 1)])).1
      (PyVal.int 1) pyLt rfl rfl rfl
  · exact (C3_amended_where_condition_error_handling
      ⟨"value", "like", PyVal.int 1⟩ (PyVal.obj [("value", PyVal.int 1)])).2.2
      (PyVal.int 1) rfl rfl

/-- C1: the global name the transformer's injected tracing calls
reference (`_step_tracer_exec_ctx`) is not among the names the step
tracer driver binds before executing the transformed program
(`_step_tracer_execution_context` and `_step_tracer_utils`), so with the
default globals the injected tracer primitives reference an unbound
global instead of the `ExecutionContext` the driver returns. -/
theorem C1_injected_context_name_unbound_by_driver :
    stepTracerDriverGlobals.contains tracerTransformerExecCtxName = false ∧
    tracerTransformerExecCtxName ≠ "_step_tracer_execution_context" := by
  constructor
  · rfl
  · decide

/-- C2: running the smallest open-then-close frame sequence
(`record_loop_execution(1, "for")` then `pop_execution()`) leaves the
closed frame with no `end_execution_id` set (the attribute is never
created), although the execution counter at the moment of closing is
`1`; so the popped frame does not carry `end_execution_id` equal to the
counter value. -/
theorem C2_pop_execution_does_not_stamp_end_execution_id :
    (traceRun c2PopOps).toOption.map (fun ctx =>
        (ctx.execution_trace.map (fun r => r.end_execution_id),
         ctx.execution_counter))
      = some ([Option.none], 1) := by
  rfl

/-- C4 counterexample: in the trace of the transformed
`def f(a, b): return a+b` / `f(3, 4)` program, no `FunctionCall` record
ends tracing with the arguments mapping `{"_arg0": 3, "_arg1": 4}`: the
instrumented body of `f` has reset the mapping, so neither key is
present. -/
theorem C4_counterexample_no_positional_argument_keys :
    e3FunctionCalls.any (fun d =>
        assocHasKey "_arg0" d.arguments || assocHasKey "_arg1" d.arguments)
      = false := by
  rfl

/-- C4 amended: the trace of the transformed `def f(a, b): return a+b` /
`f(3, 4)` program contains exactly one `FunctionCall` record; it has
`func_name = "f"`, `func_full_name = "f"`, `return_value = 7`, and its
arguments mapping at the end of tracing is `{"a": 3, "b": 4}` — the call
site records `_arg0`/`_arg1`, but the instrumented function body calls
`reset_args` and re-records each argument under its parameter name. -/
theorem C4_functioncall_record_fields :
    e3FunctionCalls.map (fun d =>
        (d.func_name, d.func_full_name, d.return_value, d.arguments))
      = [("f", "f", PyVal.int 7,
          [("a", PyVal.int 3), ("b", PyVal.int 4)])] := by
  rfl


/-- Creating a joined result from a left row that already binds the right
alias raises the alias-collision `QueryEngineError`. -/
theorem createJoinedResult_of_collision (s : JoinStep) (l r : PyVal)
    (h : collidesWith s.right_alias l = true) :
    s.createJoinedResult l r = .error (aliasUsedError s) := by
  cases l with
  | joinResult m =>
      simp only [collidesWith] at h
      simp [JoinStep.createJoinedResult, JoinStep.addRightAlias,
        aliasUsedError, h]
  | int a => simp [collidesWith] at h
  | str a => simp [collidesWith] at h
  | bool a => simp [collidesWith] at h
  | none => simp [collidesWith] at h
  | list a => simp [collidesWith] at h
  | dict a => simp [collidesWith] at h
  | obj a => simp [collidesWith] at h
  | boundMethod a => simp [collidesWith] at h

/-- The only error `_create_joined_result` raises is the alias-collision
`QueryEngineError`. -/
theorem createJoinedResult_error_shape (s : JoinStep) (l r : PyVal) (e : QErr)
    (h : s.createJoinedResult l r = .error e) : e = aliasUsedError s := by
  unfold JoinStep.createJoinedResult JoinStep.addRightAlias at h
  split at h
  · exact ((Except.error.injEq _ _).mp h).symm
  · exact Except.noConfusion h

/-- The only error the inner-join row loop raises is the alias-collision
`QueryEngineError`. -/
theorem innerJoinRow_error_shape (s : JoinStep) (l : PyVal) (rs : List PyVal)
    (e : QErr) (h : innerJoinRow s l rs = .error e) : e = aliasUsedError s := by
  induction rs generalizing e with
  | nil => exact Except.noConfusion h
  | cons r rest ih =>
      rw [innerJoinRow] at h
      split at h
      · split at h
        · rename_i e2 heq
          injection h with h2
          exact h2 ▸ createJoinedResult_error_shape s l r _ heq
        · split at h
          · rename_i heq3
            injection h with h2
            exact h2 ▸ ih _ heq3
          · exact Except.noConfusion h
      · exact ih _ h

/-- On a colliding left row the inner-join row loop either matches
nothing or raises the alias-collision error. -/
theorem innerJoinRow_of_collision (s : JoinStep) (l : PyVal)
    (h : collidesWith s.right_alias l = true) (rs : List PyVal) :
    innerJoinRow s l rs = .ok [] ∨
      innerJoinRow s l rs = .error (aliasUsedError s) := by
  induction rs with
  | nil => exact Or.inl rfl
  | cons r rest ih =>
      rw [innerJoinRow]
      split
      · rw [createJoinedResult_of_collision s l r h]
        exact Or.inr rfl
      · exact ih

/-- On a colliding left row the left-join body always raises the
alias-collision error: either some right row matches and the joined
result cannot be formed, or none does and the right-`None` fallback
cannot be formed either. -/
theorem leftJoinRow_of_collision (s : JoinStep) (l : PyVal)
    (h : collidesWith s.right_alias l = true) :
    leftJoinRow s l = .error (aliasUsedError s) := by
  unfold leftJoinRow
  rcases innerJoinRow_of_collision s l h s.other_items with h2 | h2
  · rw [h2]
    simp [createJoinedResult_of_collision s l PyVal.none h]
  · rw [h2]

/-- The only error the left-join body raises is the alias-collision
`QueryEngineError`. -/
theorem leftJoinRow_error_shape (s : JoinStep) (l : PyVal) (e : QErr)
    (h : leftJoinRow s l = .error e) : e = aliasUsedError s := by
  unfold leftJoinRow at h
  split at h
  · rename_i heq
    injection h with h2
    exact h2 ▸ innerJoinRow_error_shape s l s.other_items _ heq
  · split at h
    · split at h
      · rename_i heq2
        injection h with h2
        exact h2 ▸ createJoinedResult_error_shape s l PyVal.none _ heq2
      · exact Except.noConfusion h
    · exact Except.noConfusion h

/-- Applying a left join over a left list containing a row that already
binds the right alias aborts the whole application with the
alias-collision `QueryEngineError`: the caller receives the error and no
rows. -/
theorem LeftJoinStep.apply_of_collision (s : JoinStep) (items : List PyVal)
    (h : ∃ l ∈ items, collidesWith s.right_alias l = true) :
    LeftJoinStep.apply s items = .error (aliasUsedError s) := by
  induction items with
  | nil =>
      rcases h with ⟨l, hl, _⟩
      cases hl
  | cons x rest ih =>
      rw [LeftJoinStep.apply]
      rcases h with ⟨l, hl, hc⟩
      rcases List.mem_cons.mp hl with rfl | hrest
      · rw [leftJoinRow_of_collision s l hc]
      · cases hx : leftJoinRow s x with
        | error e =>
            rw [leftJoinRow_error_shape s x e hx]
        | ok rows =>
            rw [ih ⟨l, hrest, hc⟩]

/-- C6 counterexample: with left rows already binding alias `"a"` and a
join whose right alias is `"a"` but whose predicate never matches, the
inner join neither raises `QueryEngineError` at construction nor during
application — it returns an empty result, so the colliding pipeline does
not raise before (or instead of) producing rows. -/
theorem C6_counterexample_inner_join_collision_without_match :
    JoinStep.mk? [PyVal.int 2] (fun _ _ => false) "x" "a"
      = .ok ⟨[PyVal.int 2], fun _ _ => false, "x", "a"⟩ ∧
    InnerJoinStep.apply ⟨[PyVal.int 2], fun _ _ => false, "x", "a"⟩
        [PyVal.joinResult [("a", PyVal.int 1)]]
      = .ok [] := by
  exact ⟨rfl, rfl⟩

/-- C6 amended: a join step whose left and right aliases are equal raises
`QueryEngineError` at construction; and when a left row already binds the
right alias, a left join raises the alias-collision `QueryEngineError`
during application and emits no rows at all (the application is
all-or-nothing) — but a join that never forms a joined result from the
colliding row (such as an inner join whose predicate matches nothing)
raises no error. -/
theorem C6_amended_alias_collision_errors
    (other : List PyVal) (cond : PyVal → PyVal → Bool) (la ra : String)
    (items : List PyVal) :
    (la = ra → JoinStep.mk? other cond la ra
        = .error (QErr.queryEngineError
            "Left and right aliases must be different.")) ∧
    ((∃ l ∈ items, collidesWith ra l = true) →
        LeftJoinStep.apply ⟨other, cond, la, ra⟩ items
          = .error (aliasUsedError ⟨other, cond, la, ra⟩)) := by
  constructor
  · intro h
    subst h
    simp [JoinStep.mk?]
  · intro h
    exact LeftJoinStep.apply_of_collision ⟨other, cond, la, ra⟩ items h

/-- Witness for C6 at concrete inputs: constructing a join with equal
aliases `"a"`/`"a"` errors, and left-joining a row that already binds
`"a"` with right alias `"a"` errors with the collision message. -/
theorem C6_amended_alias_collision_errors_witness :
    JoinStep.mk? [] (fun _ _ => true) "a" "a"
      = .error (QErr.queryEngineError
          "Left and right aliases must be different.") ∧
    LeftJoinStep.apply ⟨[PyVal.int 2], fun _ _ => true, "x", "a"⟩
        [PyVal.joinResult [("a", PyVal.int 1)]]
      = .error (aliasUsedError ⟨[PyVal.int 2], fun _ _ => true, "x", "a"⟩) := by
  constructor
  · exact (C6_amended_alias_collision_errors [] (fun _ _ => true) "a" "a" []).1 rfl
  · exact (C6_amended_alias_collision_errors [PyVal.int 2] (fun _ _ => true)
      "x" "a" [PyVal.joinResult [("a", PyVal.int 1)]]).2
      ⟨PyVal.joinResult [("a", PyVal.int 1)], List.mem_singleton_self _, rfl⟩

/-- With distinct aliases, a non-colliding left row always yields a
joined result. -/
theorem createJoinedResult_ok (s : JoinStep) (l r : PyVal)
    (hne : s.left_alias ≠ s.right_alias)
    (hc : collidesWith s.right_alias l = false) :
    ∃ v, s.createJoinedResult l r = .ok v := by
  have hb : (s.left_alias == s.right_alias) = false :=
    beq_eq_false_iff_ne.mpr hne
  cases l with
  | joinResult m =>
      simp only [collidesWith] at hc
      exact ⟨PyVal.joinResult (m ++ [(s.right_alias, r)]),
        by simp [JoinStep.createJoinedResult, JoinStep.addRightAlias, hc]⟩
  | int a =>
      exact ⟨PyVal.joinResult [(s.left_alias, PyVal.int a), (s.right_alias, r)],
        by simp [JoinStep.createJoinedResult, JoinStep.addRightAlias,
          assocHasKey, assocLookup, hb]⟩
  | str a =>
      exact ⟨PyVal.joinResult [(s.left_alias, PyVal.str a), (s.right_alias, r)],
        by simp [JoinStep.createJoinedResult, JoinStep.addRightAlias,
          assocHasKey, assocLookup, hb]⟩
  | bool a =>
      exact ⟨PyVal.joinResult [(s.left_alias, PyVal.bool a), (s.right_alias, r)],
        by simp [JoinStep.createJoinedResult, JoinStep.addRightAlias,
          assocHasKey, assocLookup, hb]⟩
  | none =>
      exact ⟨PyVal.joinResult [(s.left_alias, PyVal.none), (s.right_alias, r)],
        by simp [JoinStep.createJoinedResult, JoinStep.addRightAlias,
          assocHasKey, assocLookup, hb]⟩
  | list a =>
      exact ⟨PyVal.joinResult [(s.left_alias, PyVal.list a), (s.right_alias, r)],
        by simp [JoinStep.createJoinedResult, JoinStep.addRightAlias,
          assocHasKey, assocLookup, hb]⟩
  | dict a =>
      exact ⟨PyVal.joinResult [(s.left_alias, PyVal.dict a), (s.right_alias, r)],
        by simp [JoinStep.createJoinedResult, JoinStep.addRightAlias,
          assocHasKey, assocLookup, hb]⟩
  | obj a =>
      exact ⟨PyVal.joinResult [(s.left_alias, PyVal.obj a), (s.right_alias, r)],
        by simp [JoinStep.createJoinedResult, JoinStep.addRightAlias,
          assocHasKey, assocLookup, hb]⟩
  | boundMethod a =>
      exact ⟨PyVal.joinResult
          [(s.left_alias, PyVal.boundMethod a), (s.right_alias, r)],
        by simp [JoinStep.createJoinedResult, JoinStep.addRightAlias,
          assocHasKey, assocLookup, hb]⟩

/-- With distinct aliases and a non-colliding left row, the inner-join
row loop succeeds and yields exactly one row per matching right row. -/
theorem innerJoinRow_ok_length (s : JoinStep) (l : PyVal)
    (hne : s.left_alias ≠ s.right_alias)
    (hc : collidesWith s.right_alias l = false) (rs : List PyVal) :
    ∃ rows, innerJoinRow s l rs = .ok rows ∧
      rows.length = rs.countP (fun r => s.conditions l r) := by
  induction rs with
  | nil => exact ⟨[], rfl, rfl⟩
  | cons r rest ih =>
      rcases ih with ⟨rows, hrows, hlen⟩
      by_cases hcond : s.conditions l r = true
      · rcases createJoinedResult_ok s l r hne hc with ⟨v, hv⟩
        refine ⟨v :: rows, ?_, ?_⟩
        · rw [innerJoinRow]
          simp [hcond, hv, hrows]
        · simp [List.countP_cons, hlen, hcond]
      · refine ⟨rows, ?_, ?_⟩
        · rw [innerJoinRow]
          simp [hcond, hrows]
        · simp [List.countP_cons, hlen, hcond]

/-- With distinct aliases and no colliding left row, the inner join
succeeds and its result size is the number of pairs satisfying the
predicate. -/
theorem innerJoinApply_ok_length (s : JoinStep) (items : List PyVal)
    (hne : s.left_alias ≠ s.right_alias)
    (hcoll : ∀ l ∈ items, collidesWith s.right_alias l = false) :
    ∃ rows, InnerJoinStep.apply s items = .ok rows ∧
      rows.length
        = (items ×ˢ s.other_items).countP (fun p => s.conditions p.1 p.2) := by
  induction items with
  | nil => exact ⟨[], rfl, by simp [List.nil_product]⟩
  | cons x rest ih =>
      rcases innerJoinRow_ok_length s x hne
        (hcoll x (List.mem_cons_self x rest)) s.other_items with ⟨rows1, h1, hl1⟩
      rcases ih (fun l hl => hcoll l (List.mem_cons_of_mem x hl)) with
        ⟨rows2, h2, hl2⟩
      refine ⟨rows1 ++ rows2, ?_, ?_⟩
      · rw [InnerJoinStep.apply, h1, h2]
      · rw [List.product_cons, List.countP_append, List.countP_map,
          List.length_append, hl1, hl2]
        rfl

/-- With distinct aliases and a non-colliding left row, the left-join
body succeeds, yielding the matching rows or the single right-`None`
fallback row. -/
theorem leftJoinRow_ok_length (s : JoinStep) (l : PyVal)
    (hne : s.left_alias ≠ s.right_alias)
    (hc : collidesWith s.right_alias l = false) :
    ∃ rows, leftJoinRow s l = .ok rows ∧
      rows.length
        = max (s.other_items.countP (fun r => s.conditions l r)) 1 := by
  rcases innerJoinRow_ok_length s l hne hc s.other_items with ⟨rows, h1, hl⟩
  by_cases hb : rows.isEmpty
  · rcases createJoinedResult_ok s l PyVal.none hne hc with ⟨v, hv⟩
    refine ⟨[v], ?_, ?_⟩
    · unfold leftJoinRow
      rw [h1]
      simp [hb, hv]
    · have h0 : rows.length = 0 := by
        simpa [List.isEmpty_iff_length_eq_zero] using hb
      simp [← hl, h0]
  · refine ⟨rows, ?_, ?_⟩
    · unfold leftJoinRow
      rw [h1]
      simp [hb]
    · have h0 : 0 < rows.length := by
        cases rows with
        | nil => simp at hb
        | cons a t => simp
      omega

/-- With distinct aliases and no colliding left row, the left join
succeeds and its result size is the sum over left rows of the match
count or one. -/
theorem leftJoinApply_ok_length (s : JoinStep) (items : List PyVal)
    (hne : s.left_alias ≠ s.right_alias)
    (hcoll : ∀ l ∈ items, collidesWith s.right_alias l = false) :
    ∃ rows, LeftJoinStep.apply s items = .ok rows ∧
      rows.length
        = (items.map (fun l =>
            max (s.other_items.countP (fun r => s.conditions l r)) 1)).sum := by
  induction items with
  | nil => exact ⟨[], rfl, rfl⟩
  | cons x rest ih =>
      rcases leftJoinRow_ok_length s x hne
        (hcoll x (List.mem_cons_self x rest)) with ⟨rows1, h1, hl1⟩
      rcases ih (fun l hl => hcoll l (List.mem_cons_of_mem x hl)) with
        ⟨rows2, h2, hl2⟩
      refine ⟨rows1 ++ rows2, ?_, ?_⟩
      · rw [LeftJoinStep.apply, h1, h2]
      · simp [List.length_append, hl1, hl2]

/-- The trailing unmatched-right loop of the full outer join succeeds
(the `None` left side never collides when the aliases differ) and yields
one row per right row matched by no left row. -/
theorem fullOuterUnmatchedRight_ok_length (s : JoinStep) (items : List PyVal)
    (hne : s.left_alias ≠ s.right_alias) (rs : List PyVal) :
    ∃ rows, fullOuterUnmatchedRight s items rs = .ok rows ∧
      rows.length
        = rs.countP (fun r => !(items.any (fun l => s.conditions l r))) := by
  induction rs with
  | nil => exact ⟨[], rfl, rfl⟩
  | cons r rest ih =>
      rcases ih with ⟨rows, hrows, hlen⟩
      by_cases hm : items.any (fun l => s.conditions l r) = true
      · refine ⟨rows, ?_, ?_⟩
        · rw [fullOuterUnmatchedRight]
          simp [hm, hrows]
        · simp [List.countP_cons, hlen, hm]
      · rcases createJoinedResult_ok s PyVal.none r hne rfl with ⟨v, hv⟩
        refine ⟨v :: rows, ?_, ?_⟩
        · rw [fullOuterUnmatchedRight]
          simp [hm, hv, hrows]
        · simp [List.countP_cons, hlen, hm]

/-- Splitting the per-left match counts of `r :: rest` into the counts
over `rest` plus the lefts matching `r`. -/
theorem sum_map_countP_cons (cond : PyVal → PyVal → Bool) (r : PyVal)
    (items rest : List PyVal) :
    (items.map (fun l => List.countP (fun x => cond l x) (r :: rest))).sum
      = (items.map (fun l => List.countP (fun x => cond l x) rest)).sum
        + items.countP (fun l => cond l r) := by
  induction items with
  | nil => simp
  | cons x xs ih =>
      rw [List.map_cons, List.sum_cons, ih, List.countP_cons, List.countP_cons]
      simp only [List.map_cons, List.sum_cons]
      omega

/-- Sum of per-left match counts bounds the number of rights matched by
at least one left: each such right contributes one to some left's count. -/
theorem countP_any_le_sum_countP (cond : PyVal → PyVal → Bool)
    (items rs : List PyVal) :
    rs.countP (fun r => items.any (fun l => cond l r))
      ≤ (items.map (fun l => rs.countP (fun r => cond l r))).sum := by
  induction rs with
  | nil => simp
  | cons r rest ih =>
      rw [List.countP_cons, sum_map_countP_cons]
      by_cases hm : items.any (fun l => cond l r) = true
      · have h1 : 0 < items.countP (fun l => cond l r) := by
          rcases List.any_eq_true.mp hm with ⟨l, hl, hcl⟩
          exact List.countP_pos_iff.mpr ⟨l, hl, hcl⟩
        simp only [hm, if_true]
        omega
      · simp only [hm]
        simp only [Bool.false_eq_true, if_false]
        omega

/-- A list's length bounds the sum of a per-element quantity that is at
least one everywhere. -/
theorem length_le_sum_map_of_one_le (f : PyVal → Nat) (items : List PyVal)
    (h : ∀ x ∈ items, 1 ≤ f x) : items.length ≤ (items.map f).sum := by
  induction items with
  | nil => simp
  | cons x xs ih =>
      simp only [List.map_cons, List.sum_cons, List.length_cons]
      have h1 := h x (List.mem_cons_self x xs)
      have h2 := ih (fun y hy => h y (List.mem_cons_of_mem x hy))
      omega

/-- Pointwise bound between two per-element quantities carries over to
their sums. -/
theorem sum_map_le_sum_map (f g : PyVal → Nat) (items : List PyVal)
    (h : ∀ x ∈ items, f x ≤ g x) : (items.map f).sum ≤ (items.map g).sum := by
  induction items with
  | nil => simp
  | cons x xs ih =>
      simp only [List.map_cons, List.sum_cons]
      have h1 := h x (List.mem_cons_self x xs)
      have h2 := ih (fun y hy => h y (List.mem_cons_of_mem x hy))
      omega

/-- Counting a predicate and its negation partitions a list. -/
theorem countP_add_countP_not (p : PyVal → Bool) (l : List PyVal) :
    l.countP p + l.countP (fun x => !(p x)) = l.length := by
  induction l with
  | nil => simp
  | cons x xs ih =>
      rw [List.countP_cons, List.countP_cons]
      simp only [List.length_cons]
      cases hx : p x <;> simp [hx] <;> omega

/-- With distinct aliases and no colliding left row, the full outer join
succeeds and its result size is at least the size of either side. -/
theorem FullOuterJoinStep.apply_ok_bound (s : JoinStep) (items : List PyVal)
    (hne : s.left_alias ≠ s.right_alias)
    (hcoll : ∀ l ∈ items, collidesWith s.right_alias l = false) :
    ∃ rows, FullOuterJoinStep.apply s items = .ok rows ∧
      items.length ≤ rows.length ∧ s.other_items.length ≤ rows.length := by
  rcases leftJoinApply_ok_length s items hne hcoll with ⟨L, hL, hLlen⟩
  rcases fullOuterUnmatchedRight_ok_length s items hne s.other_items with
    ⟨R, hR, hRlen⟩
  refine ⟨L ++ R, ?_, ?_, ?_⟩
  · unfold FullOuterJoinStep.apply
    rw [hL, hR]
  · have h1 : items.length ≤ L.length := by
      rw [hLlen]
      exact length_le_sum_map_of_one_le _ items (fun x _ => le_max_right _ 1)
    simp only [List.length_append]
    omega
  · have hmono : (items.map (fun l =>
        s.other_items.countP (fun r => s.conditions l r))).sum ≤ L.length := by
      rw [hLlen]
      exact sum_map_le_sum_map _ _ items (fun x _ => le_max_left _ 1)
    have hcnt := countP_any_le_sum_countP s.conditions items s.other_items
    have hpart := countP_add_countP_not
      (fun r => items.any (fun l => s.conditions l r)) s.other_items
    simp only [List.length_append]
    omega

/-- C8: with distinct aliases and no left row already binding the right
alias, the inner join's result size equals the number of pairs
satisfying the predicate, the left join's result size is at least the
number of left rows, and the full outer join's result size is at least
the maximum of the two sides' sizes. -/
theorem C8_join_result_sizes
    (other : List PyVal) (cond : PyVal → PyVal → Bool) (la ra : String)
    (items : List PyVal) (hne : la ≠ ra)
    (hcoll : ∀ l ∈ items, collidesWith ra l = false) :
    (∃ rows, InnerJoinStep.apply ⟨other, cond, la, ra⟩ items = .ok rows ∧
        rows.length = (items ×ˢ other).countP (fun p => cond p.1 p.2)) ∧
    (∃ rows, LeftJoinStep.apply ⟨other, cond, la, ra⟩ items = .ok rows ∧
        items.length ≤ rows.length) ∧
    (∃ rows, FullOuterJoinStep.apply ⟨other, cond, la, ra⟩ items = .ok rows ∧
        max items.length other.length ≤ rows.length) := by
  refine ⟨?_, ?_, ?_⟩
  · exact innerJoinApply_ok_length ⟨other, cond, la, ra⟩ items hne hcoll
  · rcases leftJoinApply_ok_length ⟨other, cond, la, ra⟩ items hne hcoll
      with ⟨rows, h1, h2⟩
    refine ⟨rows, h1, ?_⟩
    rw [h2]
    exact length_le_sum_map_of_one_le _ items (fun x _ => le_max_right _ 1)
  · rcases FullOuterJoinStep.apply_ok_bound ⟨other, cond, la, ra⟩ items hne hcoll
      with ⟨rows, h1, h2, h3⟩
    exact ⟨rows, h1, max_le h2 h3⟩

/-- Witness for C8 at concrete inputs: joining `[1, 2]` with `[2, 3]`
under value equality with aliases `"x"`/`"y"`. -/
theorem C8_join_result_sizes_witness :
    (∃ rows, InnerJoinStep.apply
        ⟨[PyVal.int 2, PyVal.int 3], pyEq, "x", "y"⟩
        [PyVal.int 1, PyVal.int 2] = .ok rows ∧
      rows.length = (([PyVal.int 1, PyVal.int 2]
          ×ˢ [PyVal.int 2, PyVal.int 3]).countP (fun p => pyEq p.1 p.2))) ∧
    (∃ rows, LeftJoinStep.apply
        ⟨[PyVal.int 2, PyVal.int 3], pyEq, "x", "y"⟩
        [PyVal.int 1, PyVal.int 2] = .ok rows ∧
      ([PyVal.int 1, PyVal.int 2] : List PyVal).length ≤ rows.length) ∧
    (∃ rows, FullOuterJoinStep.apply
        ⟨[PyVal.int 2, PyVal.int 3], pyEq, "x", "y"⟩
        [PyVal.int 1, PyVal.int 2] = .ok rows ∧
      max ([PyVal.int 1, PyVal.int 2] : List PyVal).length
          ([PyVal.int 2, PyVal.int 3] : List PyVal).length ≤ rows.length) :=
  C8_join_result_sizes [PyVal.int 2, PyVal.int 3] pyEq "x" "y"
    [PyVal.int 1, PyVal.int 2]
    (by decide)
    (by
      intro l hl
      simp only [List.mem_cons, List.not_mem_nil, or_false] at hl
      rcases hl with rfl | rfl <;> rfl)

/-- Replacing a trace entry by one with the same execution id leaves the
id sequence unchanged. -/
theorem map_execution_id_set (tr : List StatementExecution) (i : Nat)
    (r r' : StatementExecution) (hg : tr.get? i = some r)
    (hid : r'.execution_id = r.execution_id) :
    (tr.set i r').map (fun x => x.execution_id)
      = tr.map (fun x => x.execution_id) := by
  induction tr generalizing i with
  | nil => cases hg
  | cons a rest ih =>
      cases i with
      | zero =>
          injection hg with hg
          subst hg
          simp [List.set, hid]
      | succ k =>
          simp only [List.get?] at hg
          simp [List.set, ih k hg]

/-- Replacing a trace entry leaves a filter unchanged when neither the
old nor the new entry matches the predicate. -/
theorem filter_set_not_matching (p : StatementExecution → Bool)
    (tr : List StatementExecution) (i : Nat) (r r' : StatementExecution)
    (hg : tr.get? i = some r) (h1 : p r = false) (h2 : p r' = false) :
    (tr.set i r').filter p = tr.filter p := by
  induction tr generalizing i with
  | nil => cases hg
  | cons a rest ih =>
      cases i with
      | zero =>
          injection hg with hg
          subst hg
          simp [List.set, List.filter_cons, h1, h2]
      | succ k =>
          simp only [List.get?] at hg
          simp [List.set, List.filter_cons, ih k hg]

/-- With strictly increasing execution ids, the only entry of
`tr.set i r'` carrying the replaced entry's id is the replacement
itself. -/
theorem eq_of_mem_set_of_execution_id_eq (tr : List StatementExecution)
    (i : Nat) (r r' x : StatementExecution)
    (hnd : (tr.map (fun y => y.execution_id)).Pairwise (· < ·))
    (hg : tr.get? i = some r) (hid : r'.execution_id = r.execution_id)
    (hx : x ∈ tr.set i r') (hxid : x.execution_id = r.execution_id) :
    x = r' := by
  induction tr generalizing i with
  | nil => cases hg
  | cons a rest ih =>
      simp only [List.map_cons, List.pairwise_cons] at hnd
      cases i with
      | zero =>
          injection hg with hg
          subst hg
          simp only [List.set] at hx
          rcases List.mem_cons.mp hx with rfl | hx2
          · rfl
          · exfalso
            have := hnd.1 x.execution_id
              (List.mem_map.mpr ⟨x, hx2, rfl⟩)
            omega
      | succ k =>
          simp only [List.get?] at hg
          simp only [List.set] at hx
          rcases List.mem_cons.mp hx with rfl | hx2
          · exfalso
            have hrmem : r ∈ rest := List.get?_mem hg
            have := hnd.1 r.execution_id
              (List.mem_map.mpr ⟨r, hrmem, rfl⟩)
            omega
          · exact ih k hnd.2 hg hx2

/-- The id sequence invariant makes the trace's execution ids strictly
increasing. -/
theorem TraceInv.ids_pairwise {ctx : ExecutionContext} (hinv : TraceInv ctx) :
    (ctx.execution_trace.map (fun r => r.execution_id)).Pairwise (· < ·) := by
  rw [hinv.ids_range]
  exact List.pairwise_lt_range' 1 ctx.execution_counter

/-- Every trace record's execution id lies between `1` and the counter. -/
theorem TraceInv.id_bounds {ctx : ExecutionContext} (hinv : TraceInv ctx)
    (r : StatementExecution) (hr : r ∈ ctx.execution_trace) :
    1 ≤ r.execution_id ∧ r.execution_id ≤ ctx.execution_counter := by
  have hm : r.execution_id ∈ List.range' 1 ctx.execution_counter := by
    rw [← hinv.ids_range]
    exact List.mem_map.mpr ⟨r, hr, rfl⟩
  rw [List.mem_range'_1] at hm
  omega

/-- The invariant only reads the trace, the execution stack and the
counter, so it transfers between contexts agreeing on those fields. -/
theorem traceInv_of_fields (ctx ctx' : ExecutionContext)
    (h1 : ctx'.execution_trace = ctx.execution_trace)
    (h2 : ctx'.execution_stack = ctx.execution_stack)
    (h3 : ctx'.execution_counter = ctx.execution_counter)
    (hinv : TraceInv ctx) : TraceInv ctx' := by
  constructor
  · rw [h1, h3]
    exact hinv.ids_range
  · rw [h2, h1]
    exact hinv.stack_valid
  · rw [h1, h3]
    exact hinv.iter_ref_le
  · rw [h1]
    exact hinv.loop_iters

/-- Pushing a freshly numbered record that is not a `LoopIteration` and,
if a `LoopExecution`, starts with zero iterations, preserves the
invariant. -/
theorem traceInv_push_fresh (ctx : ExecutionContext) (hinv : TraceInv ctx)
    (k : RecKind) (scope line : Nat)
    (hknoiter : ∀ i lid, k ≠ RecKind.loopIteration i lid)
    (hkloop : ∀ lt n, k = RecKind.loop lt n → n = 0) :
    TraceInv (({ ctx with execution_counter := ctx.execution_counter + 1
        }).pushExecution
        ⟨ctx.execution_counter + 1, scope, line, k, Option.none⟩) := by
  set e : StatementExecution :=
    ⟨ctx.execution_counter + 1, scope, line, k, Option.none⟩ with he
  have hnotiter : ∀ loopId, isIterationOf loopId e = false := by
    intro loopId
    unfold isIterationOf
    cases hke : e.kind with
    | loopIteration i lid => exact absurd hke (hknoiter i lid)
    | _ => rfl
  constructor
  · simp only [ExecutionContext.pushExecution, List.map_append, List.map_cons,
      List.map_nil, hinv.ids_range]
    have := @List.range'_concat 1 1 ctx.execution_counter
    simp only [one_mul] at this
    rw [this]
    simp [Nat.add_comm]
  · intro i hi
    simp only [ExecutionContext.pushExecution, List.length_append,
      List.length_cons, List.length_nil] at hi ⊢
    rcases List.mem_cons.mp hi with rfl | hi2
    · omega
    · have := hinv.stack_valid i hi2
      omega
  · intro r hr i lid hk
    simp only [ExecutionContext.pushExecution] at hr ⊢
    rcases List.mem_append.mp hr with hr2 | hr2
    · have := hinv.iter_ref_le r hr2 i lid hk
      omega
    · rcases List.mem_singleton.mp hr2 with rfl
      exact absurd hk (hknoiter i lid)
  · intro L hL lt n hLk
    simp only [ExecutionContext.pushExecution] at hL ⊢
    unfold iterationNumsFor
    rw [List.filter_append]
    rcases List.mem_append.mp hL with hL2 | hL2
    · have hfe : List.filter (isIterationOf L.execution_id) [e] = [] := by
        simp [List.filter_cons, hnotiter]
      rw [hfe, List.append_nil]
      exact hinv.loop_iters L hL2 lt n hLk
    · rcases List.mem_singleton.mp hL2 with rfl
      have hn0 : n = 0 := hkloop lt n hLk
      subst hn0
      have hftr : List.filter (isIterationOf e.execution_id)
          ctx.execution_trace = [] := by
        rw [List.filter_eq_nil_iff]
        intro a ha
        unfold isIterationOf
        cases hak : a.kind with
        | loopIteration i lid =>
            have hle := hinv.iter_ref_le a ha i lid hak
            have : e.execution_id = ctx.execution_counter + 1 := rfl
            simp only [this]
            simp only [ne_eq, beq_iff_eq]
            omega
        | loop a b => simp
        | function a => simp
        | branch a b => simp
      have hfe : List.filter (isIterationOf e.execution_id) [e] = [] := by
        simp [List.filter_cons, hnotiter]
      rw [hftr, hfe]
      rfl

/-- A current execution designates a valid trace index holding that
record. -/
theorem currentExecution_get? (ctx : ExecutionContext) (idx : Nat)
    (r : StatementExecution) (h : ctx.currentExecution = some (idx, r)) :
    ctx.execution_trace.get? idx = some r := by
  unfold ExecutionContext.currentExecution at h
  split at h
  · cases h
  · rename_i i stk heq
    cases hg : ctx.execution_trace.get? i with
    | none =>
        rw [hg] at h
        cases h
    | some r2 =>
        rw [hg] at h
        injection h with h2
        injection h2 with h3 h4
        subst h3
        subst h4
        exact hg

/-- A current execution's index is the top of the execution stack. -/
theorem currentExecution_stack_head (ctx : ExecutionContext) (idx : Nat)
    (r : StatementExecution) (h : ctx.currentExecution = some (idx, r)) :
    ∃ stk, ctx.execution_stack = idx :: stk := by
  unfold ExecutionContext.currentExecution at h
  split at h
  · cases h
  · rename_i i stk heq
    cases hg : ctx.execution_trace.get? i with
    | none =>
        rw [hg] at h
        cases h
    | some r2 =>
        rw [hg] at h
        injection h with h2
        injection h2 with h3 h4
        subst h3
        exact ⟨stk, heq⟩

/-- Mutating the current `FunctionCall`'s payload in place preserves the
invariant: the record keeps its id and stays a non-loop, non-iteration
record. -/
theorem traceInv_mutate (ctx : ExecutionContext) (hinv : TraceInv ctx)
    (f : FunctionCallData → FunctionCallData) (ctx' : ExecutionContext)
    (h : ctx.mutateCurrentFunction f = .ok ctx') : TraceInv ctx' := by
  unfold ExecutionContext.mutateCurrentFunction at h
  split at h
  · cases h
  · rename_i idx r heq
    split at h
    · rename_i d hd
      injection h with h2
      subst h2
      have hg : ctx.execution_trace.get? idx = some r :=
        currentExecution_get? ctx idx r heq
      set newr : StatementExecution :=
        { r with kind := RecKind.function (f d) } with hnewr
      constructor
      · show ((ctx.execution_trace.set idx newr).map
            (fun x => x.execution_id)) = _
        rw [map_execution_id_set ctx.execution_trace idx r newr hg rfl]
        exact hinv.ids_range
      · intro i hi
        simp only [List.length_set]
        exact hinv.stack_valid i hi
      · intro x hx i lid hk
        rcases List.mem_or_eq_of_mem_set hx with hx2 | rfl
        · exact hinv.iter_ref_le x hx2 i lid hk
        · exact absurd hk (by simp [hnewr])
      · intro L hL lt n hLk
        rcases List.mem_or_eq_of_mem_set hL with hL2 | rfl
        · unfold iterationNumsFor
          rw [filter_set_not_matching (isIterationOf L.execution_id)
            ctx.execution_trace idx r newr hg
            (by unfold isIterationOf; rw [hd])
            (by unfold isIterationOf; simp [hnewr])]
          exact hinv.loop_iters L hL2 lt n hLk
        · exact absurd hLk (by simp [hnewr])
    · cases h

/-- Popping the execution stack preserves the invariant: the trace and
counter are untouched and the remaining stack entries stay valid. -/
theorem traceInv_pop (ctx : ExecutionContext) (hinv : TraceInv ctx)
    (ctx' : ExecutionContext) (h : ctx.popExecution = .ok ctx') :
    TraceInv ctx' := by
  unfold ExecutionContext.popExecution at h
  split at h
  · cases h
  · rename_i idx rest hs
    have hmem : ∀ i, i ∈ rest → i < ctx.execution_trace.length := by
      intro i hi
      refine hinv.stack_valid i ?_
      rw [hs]
      exact List.mem_cons_of_mem idx hi
    split at h
    · cases h
    · rename_i r hg
      split at h
      · split at h
        · cases h
        · injection h with h2
          subst h2
          exact ⟨hinv.ids_range, hmem, hinv.iter_ref_le, hinv.loop_iters⟩
      · injection h with h2
        subst h2
        exact ⟨hinv.ids_range, hmem, hinv.iter_ref_le, hinv.loop_iters⟩

/-- Recording a loop iteration preserves the invariant: the owning loop's
`num_iterations` is bumped exactly as its iteration list grows by the
record carrying the next 0-based iteration number. -/
theorem traceInv_record_loop_iteration (ctx : ExecutionContext)
    (hinv : TraceInv ctx) (ctx' : ExecutionContext)
    (h : ctx.recordLoopIteration = .ok ctx') : TraceInv ctx' := by
  unfold ExecutionContext.recordLoopIteration at h
  split at h
  · rename_i idx r heq
    split at h
    · rename_i lt n hk
      split at h
      · cases h
      · rename_i scope hscope
        injection h with h2
        subst h2
        have hg : ctx.execution_trace.get? idx = some r :=
          currentExecution_get? ctx idx r heq
        have hrmem : r ∈ ctx.execution_trace := List.get?_mem hg
        have hrbounds := hinv.id_bounds r hrmem
        have hpair := hinv.ids_pairwise
        set bumped : StatementExecution :=
          { r with kind := RecKind.loop lt (n + 1) } with hbumped
        set it : StatementExecution :=
          ⟨ctx.execution_counter + 1, scope, r.line_number,
           RecKind.loopIteration n r.execution_id, Option.none⟩ with hit
        have hpr : ∀ loopId, isIterationOf loopId r = false := by
          intro loopId
          unfold isIterationOf
          rw [hk]
        have hpb : ∀ loopId, isIterationOf loopId bumped = false := by
          intro loopId
          unfold isIterationOf
          simp [hbumped]
        have hpit : ∀ loopId,
            isIterationOf loopId it = (r.execution_id == loopId) := by
          intro loopId
          rfl
        constructor
        · show ((ctx.execution_trace.set idx bumped ++ [it]).map
              (fun x => x.execution_id))
            = List.range' 1 (ctx.execution_counter + 1)
          rw [List.map_append,
            map_execution_id_set ctx.execution_trace idx r bumped hg rfl,
            hinv.ids_range]
          have hconc := @List.range'_concat 1 1 ctx.execution_counter
          simp only [one_mul] at hconc
          rw [hconc]
          simp [Nat.add_comm]
        · intro i hi
          simp only [ExecutionContext.pushExecution, List.length_append,
            List.length_cons, List.length_nil, List.length_set] at hi ⊢
          rcases List.mem_cons.mp hi with rfl | hi2
          · omega
          · have := hinv.stack_valid i hi2
            omega
        · intro x hx i lid hkx
          show lid ≤ ctx.execution_counter + 1
          rcases List.mem_append.mp hx with hx2 | hx2
          · rcases List.mem_or_eq_of_mem_set hx2 with hx3 | rfl
            · have := hinv.iter_ref_le x hx3 i lid hkx
              omega
            · exact absurd hkx (by simp [hbumped])
          · rcases List.mem_singleton.mp hx2 with rfl
            have hkit : RecKind.loopIteration n r.execution_id
                = RecKind.loopIteration i lid := hkx
            injection hkit with h5 h6
            subst h6
            omega
        · intro L hL lt2 n2 hLk
          show iterationNumsFor L.execution_id
              (ctx.execution_trace.set idx bumped ++ [it]) = List.range n2
          unfold iterationNumsFor
          rw [List.filter_append,
            filter_set_not_matching (isIterationOf L.execution_id)
              ctx.execution_trace idx r bumped hg
              (hpr L.execution_id) (hpb L.execution_id)]
          rcases List.mem_append.mp hL with hL2 | hL2
          · by_cases hLid : L.execution_id = r.execution_id
            · have hLbumped : L = bumped :=
                eq_of_mem_set_of_execution_id_eq ctx.execution_trace idx r
                  bumped L hpair hg rfl hL2 hLid
              subst hLbumped
              have hkb : RecKind.loop lt (n + 1) = RecKind.loop lt2 n2 := hLk
              injection hkb with h5 h6
              subst h6
              have hfit : List.filter
                  (isIterationOf bumped.execution_id) [it] = [it] := by
                simp [List.filter_cons, hpit, hLid]
              rw [hfit]
              have hold : iterationNumsFor r.execution_id
                  ctx.execution_trace = List.range n :=
                hinv.loop_iters r hrmem lt n hk
              unfold iterationNumsFor at hold
              have hLr : bumped.execution_id = r.execution_id := rfl
              rw [List.map_append, hLr, hold]
              have hmapit : [it].map iterationNumOf = [n] := rfl
              rw [hmapit, List.range_succ]
            · have hLtr : L ∈ ctx.execution_trace := by
                rcases List.mem_or_eq_of_mem_set hL2 with hL3 | rfl
                · exact hL3
                · exact absurd rfl hLid
              have hfit : List.filter
                  (isIterationOf L.execution_id) [it] = [] := by
                have : (r.execution_id == L.execution_id) = false :=
                  beq_eq_false_iff_ne.mpr (fun hc => hLid hc.symm)
                simp [List.filter_cons, hpit, this]
              rw [hfit, List.append_nil]
              exact hinv.loop_iters L hLtr lt2 n2 hLk
          · rcases List.mem_singleton.mp hL2 with rfl
            exact absurd hLk (by simp [hit])
    · cases h
  · cases h

/-- Every tracer primitive preserves the invariant. -/
theorem traceStep_inv (ctx : ExecutionContext) (op : TraceOp)
    (ctx' : ExecutionContext) (h : traceStep ctx op = .ok ctx')
    (hinv : TraceInv ctx) : TraceInv ctx' := by
  cases op with
  | recordLoopExecution line loopType =>
      simp only [traceStep] at h
      unfold ExecutionContext.recordLoopExecution at h
      split at h
      · cases h
      · rename_i scope hscope
        injection h with h2
        subst h2
        exact traceInv_push_fresh ctx hinv (RecKind.loop loopType 0) scope line
          (fun i lid h2 => RecKind.noConfusion h2)
          (fun lt n h2 => by injection h2 with h3 h4; omega)
  | recordLoopIteration =>
      exact traceInv_record_loop_iteration ctx hinv ctx' h
  | recordFunctionCall line funcName funcFullName =>
      simp only [traceStep] at h
      unfold ExecutionContext.recordFunctionCall at h
      split at h
      · cases h
      · rename_i scope hscope
        injection h with h2
        subst h2
        have hpush := traceInv_push_fresh ctx hinv
          (RecKind.function ⟨funcName, funcFullName, Option.none, [],
            PyVal.none,
            match ctx.currentExecution with
            | some (_, r) => r.execution_id
            | Option.none => 0⟩) scope line
          (fun i lid h2 => RecKind.noConfusion h2)
          (fun lt n h2 => RecKind.noConfusion h2)
        exact ⟨hpush.ids_range, hpush.stack_valid, hpush.iter_ref_le,
          hpush.loop_iters⟩
  | recordBranchExecution line condStr condResult =>
      simp only [traceStep] at h
      unfold ExecutionContext.recordBranchExecution at h
      split at h
      · cases h
      · rename_i scope hscope
        injection h with h2
        subst h2
        exact traceInv_push_fresh ctx hinv
          (RecKind.branch condStr condResult) scope line
          (fun i lid h2 => RecKind.noConfusion h2)
          (fun lt n h2 => RecKind.noConfusion h2)
  | recordVariable name value accessPath line =>
      simp only [traceStep] at h
      unfold ExecutionContext.recordVariable at h
      split at h
      · cases h
      · rename_i scope hscope
        injection h with h2
        subst h2
        exact ⟨hinv.ids_range, hinv.stack_valid, hinv.iter_ref_le,
          hinv.loop_iters⟩
  | popExecution =>
      exact traceInv_pop ctx hinv ctx' h
  | currentResetArgs =>
      exact traceInv_mutate ctx hinv _ ctx' h
  | currentAddArg name value =>
      exact traceInv_mutate ctx hinv _ ctx' h
  | currentSetReturnValue v =>
      exact traceInv_mutate ctx hinv _ ctx' h
  | currentSetFuncDefLineNum line =>
      exact traceInv_mutate ctx hinv _ ctx' h

/-- Running primitives from an invariant-satisfying state yields an
invariant-satisfying state. -/
theorem traceRunFrom_inv (ops : List TraceOp) (ctx : ExecutionContext)
    (hinv : TraceInv ctx) (ctx' : ExecutionContext)
    (h : traceRunFrom ctx ops = .ok ctx') : TraceInv ctx' := by
  induction ops generalizing ctx with
  | nil =>
      injection h with h2
      subst h2
      exact hinv
  | cons op rest ih =>
      rw [traceRunFrom] at h
      split at h
      · cases h
      · rename_i ctx2 hstep
        exact ih ctx2 (traceStep_inv ctx op ctx2 hstep hinv) h

/-- The freshly initialised execution context satisfies the invariant. -/
theorem traceInv_init : TraceInv ExecutionContext.init := by
  constructor
  · rfl
  · intro i hi
    cases hi
  · intro r hr i lid hk
    cases hr
  · intro L hL lt n hk
    cases hL

/-- Any successful run of tracer primitives on a fresh context satisfies
the invariant. -/
theorem traceRun_inv (ops : List TraceOp) (ctx : ExecutionContext)
    (h : traceRun ops = .ok ctx) : TraceInv ctx :=
  traceRunFrom_inv ops ExecutionContext.init traceInv_init ctx h

/-- C5: in every completed run of tracer primitives, each
`LoopExecution`'s `num_iterations` equals the number of `LoopIteration`
records whose `loop_execution_id` is the loop's execution id, and those
records carry the 0-based consecutive iteration numbers `0, …,
num_iterations - 1` in creation (trace) order. -/
theorem C5_loop_iteration_count_and_numbering (ops : List TraceOp)
    (ctx : ExecutionContext) (h : traceRun ops = .ok ctx) :
    ∀ L ∈ ctx.execution_trace, ∀ lt n, L.kind = RecKind.loop lt n →
      (ctx.execution_trace.filter (isIterationOf L.execution_id)).length = n ∧
      iterationNumsFor L.execution_id ctx.execution_trace = List.range n := by
  have hinv := traceRun_inv ops ctx h
  intro L hL lt n hk
  have hnums := hinv.loop_iters L hL lt n hk
  refine ⟨?_, hnums⟩
  have hlen := congrArg List.length hnums
  simpa [iterationNumsFor] using hlen

/-- Witness for C5 on the concrete two-iteration `for` run: the loop
record reports two iterations and the trace holds exactly the iteration
numbers `0, 1` for it. -/
theorem C5_loop_iteration_count_and_numbering_witness :
    (c5WitnessCtx.execution_trace.filter (isIterationOf 1)).length = 2 ∧
    iterationNumsFor 1 c5WitnessCtx.execution_trace = List.range 2 :=
  C5_loop_iteration_count_and_numbering c5WitnessOps c5WitnessCtx rfl
    ⟨1, 0, 1, RecKind.loop "for" 2, Option.none⟩
    (List.mem_cons_self _ _) "for" 2 rfl

/-- C7: in every completed run of tracer primitives, the execution ids of
the trace records are strictly increasing in trace order, every id is at
least `1` (`0` is reserved for the global/outside context), and the ids
are issued centrally as exactly `1, …, counter`. -/
theorem C7_execution_ids_strictly_increasing (ops : List TraceOp)
    (ctx : ExecutionContext) (h : traceRun ops = .ok ctx) :
    (ctx.execution_trace.map (fun r => r.execution_id)).Pairwise (· < ·) ∧
    (∀ r ∈ ctx.execution_trace, 1 ≤ r.execution_id) ∧
    ctx.execution_trace.map (fun r => r.execution_id)
      = List.range' 1 ctx.execution_counter := by
  have hinv := traceRun_inv ops ctx h
  exact ⟨hinv.ids_pairwise, fun r hr => (hinv.id_bounds r hr).1,
    hinv.ids_range⟩

/-- Witness for C7 on the concrete function-call-and-branch run. -/
theorem C7_execution_ids_strictly_increasing_witness :
    (c7WitnessCtx.execution_trace.map (fun r => r.execution_id)).Pairwise
        (· < ·) ∧
    (∀ r ∈ c7WitnessCtx.execution_trace, 1 ≤ r.execution_id) ∧
    c7WitnessCtx.execution_trace.map (fun r => r.execution_id)
      = List.range' 1 c7WitnessCtx.execution_counter :=
  C7_execution_ids_strictly_increasing c7WitnessOps c7WitnessCtx rfl
